import Mathlib

/-!
Verification of the kico connection-discovery engine (pkg/runners/corednsrunner).

The Go source is shallowly embedded: strings become `List Char` (the relevant
log lines are ASCII, so Go's byte indexing and `List Char` indexing agree),
Go slices become `List`, Go maps become association lists or functions, and a
Go runtime panic (integer division by zero, nil-pointer dereference, index out
of range) is encoded as `none` / an `Option`-valued result.
-/

set_option maxRecDepth 100000

abbrev Str := List Char

/-- `strings.HasPrefix(s, pre)`. -/
def strHasPfx : Str → Str → Bool
  | _, [] => true
  | [], _ :: _ => false
  | c :: s, d :: p => (c == d) && strHasPfx s p

/-- `strings.Contains(s, pat)`. -/
def strHasSub : Str → Str → Bool
  | [], pat => strHasPfx [] pat
  | c :: rest, pat => strHasPfx (c :: rest) pat || strHasSub rest pat

/-- `strings.Index(s, pat)`: index of the first occurrence of `pat` in `s`
(`none` for Go's `-1`). -/
def strIdx : Str → Str → Option Nat
  | [], pat => if strHasPfx [] pat then some 0 else none
  | c :: rest, pat =>
    if strHasPfx (c :: rest) pat then some 0 else (strIdx rest pat).map (· + 1)

theorem strHasPfx_iff (s p : Str) : strHasPfx s p = true ↔ ∃ t, s = p ++ t := by
  induction p generalizing s with
  | nil => simp [strHasPfx]
  | cons d p ih =>
    cases s with
    | nil => simp [strHasPfx]
    | cons c s =>
      simp only [strHasPfx, Bool.and_eq_true, beq_iff_eq, ih, List.cons_append,
        List.cons.injEq]
      constructor
      · rintro ⟨rfl, t, rfl⟩; exact ⟨t, rfl, rfl⟩
      · rintro ⟨t, rfl, rfl⟩; exact ⟨rfl, t, rfl⟩

theorem strHasSub_iff (s pat : Str) :
    strHasSub s pat = true ↔ ∃ a b, s = a ++ pat ++ b := by
  induction s with
  | nil =>
    simp only [strHasSub, strHasPfx_iff]
    constructor
    · rintro ⟨t, ht⟩
      rcases List.append_eq_nil.mp ht.symm with ⟨h1, h2⟩
      exact ⟨[], [], by simp [h1, h2]⟩
    · rintro ⟨a, b, hab⟩
      rcases List.append_eq_nil.mp (List.append_eq_nil.mp hab.symm).1 with ⟨h1, h2⟩
      exact ⟨b, by simp_all⟩
  | cons c rest ih =>
    simp only [strHasSub, Bool.or_eq_true, strHasPfx_iff, ih]
    constructor
    · rintro (⟨t, ht⟩ | ⟨a, b, hab⟩)
      · exact ⟨[], t, by simp [ht]⟩
      · exact ⟨c :: a, b, by simp [hab]⟩
    · rintro ⟨a, b, hab⟩
      cases a with
      | nil => exact Or.inl ⟨b, by simpa using hab⟩
      | cons a0 a' =>
        right
        exact ⟨a', b, by simpa using congrArg List.tail hab⟩

/-- If `strIdx` reports an occurrence at `n`, then `pat` is a prefix of `s.drop n`. -/
theorem strIdx_some_pfx (s pat : Str) (n : Nat) (h : strIdx s pat = some n) :
    strHasPfx (s.drop n) pat = true := by
  induction s generalizing n with
  | nil =>
    simp only [strIdx] at h
    split at h
    · cases h; simpa
    · cases h
  | cons c rest ih =>
    simp only [strIdx] at h
    split at h
    · cases h; simpa
    · rcases Option.map_eq_some'.mp h with ⟨m, hm, rfl⟩
      simpa using ih m hm

-- ---------------------------------------------------------------------------
-- LogGrammar (relevantLogMsg / parseLogMsg)
-- ---------------------------------------------------------------------------

/-- The constant `fqdnSuffix = ".svc.cluster.local."`. -/
def fqdnSuffix : Str := ".svc.cluster.local.".toList

def infoTag : Str := "[INFO]".toList

def noerrorTag : Str := "NOERROR".toList

/-- `relevantLogMsg` from the source: prefix `[INFO]`, contains the FQDN
suffix, contains `NOERROR`, contains a colon. -/
def relevantLogMsg (s : Str) : Bool :=
  strHasPfx s infoTag && strHasSub s fqdnSuffix &&
    strHasSub s noerrorTag && strHasSub s [':']

structure ConnectionLog where
  fromIP : Str
  toHostname : Str
  fromPort : Str
deriving DecidableEq

inductive ParseErr
  | fqdnNotFound
  | ipNotFound
  | portNotFound
deriving DecidableEq

instance {ε α : Type} [DecidableEq ε] [DecidableEq α] : DecidableEq (Except ε α) := fun
  | .ok a, .ok b =>
    if h : a = b then .isTrue (by rw [h]) else .isFalse (by simp [h])
  | .error e, .error f =>
    if h : e = f then .isTrue (by rw [h]) else .isFalse (by simp [h])
  | .ok _, .error _ => .isFalse (by simp)
  | .error _, .ok _ => .isFalse (by simp)

/-- The downward index scan `for i := start; i >= 0; i-- { if s[i] == ch ... }`
from `parseLogMsg`: the largest index `k ≤ start` with `s[k] = ch`. -/
def lastIdxLE (ch : Char) (s : Str) : Nat → Option Nat
  | 0 => if s[0]? = some ch then some 0 else none
  | i + 1 => if s[i + 1]? = some ch then some (i + 1) else lastIdxLE ch s i

/-- `strings.Split(s, " ")`: fields of `s` between single space characters,
empty fields kept. -/
def splitOnSpace : Str → List Str
  | [] => [[]]
  | c :: rest =>
    if c = ' ' then [] :: splitOnSpace rest
    else
      match splitOnSpace rest with
      | t :: ts => (c :: t) :: ts
      | [] => [[c]]

/-- `parseLogMsg` from the source. The Go function returns a triple
`(*ConnectionLog, error, bool)`; the three reachable shapes —
`(nil, nil, false)`, `(nil, err, false)`, `(c, nil, true)` — are encoded as
`.ok none`, `.error e`, `.ok (some c)`. The `strIdx ... = none` arm is
unreachable because relevance guarantees the suffix occurs, and the
`getD 1 []` default is unreachable because a nonempty pre-suffix name part
guarantees the line contains a space, hence at least two fields. -/
def parseLogMsg (s : Str) : Except ParseErr (Option ConnectionLog) :=
  if relevantLogMsg s then
    match strIdx s fqdnSuffix with
    | none => .ok none
    | some si =>
      let fqdn : Str :=
        match lastIdxLE ' ' s si with
        | some i => (s.take si).drop (i + 1)
        | none => []
      if fqdn = [] then .error .fqdnNotFound
      else
        let host := fqdn ++ fqdnSuffix
        let eiText := (splitOnSpace s).getD 1 []
        let ipPort : Str × Str :=
          match lastIdxLE ':' eiText (eiText.length - 1) with
          | some i => (eiText.take i, eiText.drop (i + 1))
          | none => ([], [])
        if ipPort.1 = [] then .error .ipNotFound
        else if ipPort.2 = [] then .error .portNotFound
        else .ok (some ⟨ipPort.1, host, ipPort.2⟩)
  else .ok none

/-- `parseConnectionLogs`, one source's inner scanner loop: parse each line;
a parse error is returned immediately (aborting the harvest), a relevant
line's event is appended, an irrelevant line is skipped. -/
def parseLines : List Str → Except ParseErr (List ConnectionLog)
  | [] => .ok []
  | t :: rest =>
    match parseLogMsg t with
    | .error e => .error e
    | .ok none => parseLines rest
    | .ok (some c) => (parseLines rest).map (c :: ·)

/-- `parseConnectionLogs` over all coredns pods: each pod contributes the
lines of its log stream, in pod order; the first parse error aborts. -/
def parseConnectionLogs : List (List Str) → Except ParseErr (List ConnectionLog)
  | [] => .ok []
  | src :: more =>
    match parseLines src with
    | .error e => .error e
    | .ok cs => (parseConnectionLogs more).map (cs ++ ·)

-- ---------------------------------------------------------------------------
-- The specification's description of `parse` (two variants)
-- ---------------------------------------------------------------------------

/-- Splits `t` at its last occurrence of `ch`: `lastSplitOn ch t = some (a, b)`
with `t = a ++ ch :: b` and no `ch` in `b`; `none` when `ch` does not occur. -/
def lastSplitOn (ch : Char) : Str → Option (Str × Str)
  | [] => none
  | c :: rest =>
    match lastSplitOn ch rest with
    | some (a, b) => some (c :: a, b)
    | none => if c = ch then some ([], rest) else none

/-- Fields of `s` under splitting at every space character, empty fields
kept (the "second whitespace-delimited token" of the amended reading). -/
def spaceFields (s : Str) : List Str :=
  s.foldr
    (fun c acc =>
      if c = ' ' then [] :: acc
      else
        match acc with
        | t :: ts => (c :: t) :: ts
        | [] => [[c]])
    [[]]

/-- The claim's parse, read literally: the hostname is found by scanning
backward from the FQDN-suffix occurrence to the nearest preceding whitespace
character (ParseError "FQDN not found" only when NO whitespace precedes it);
the IP and port come from the second whitespace-delimited token of the line
(empty fields dropped, as "token" suggests), split at its last colon, with a
ParseError when the colon is absent or either side is empty. -/
def specParse (s : Str) : Except ParseErr (Option ConnectionLog) :=
  if relevantLogMsg s then
    match strIdx s fqdnSuffix with
    | none => .ok none
    | some si =>
      let pre := s.take si
      if pre.any (fun c => c.isWhitespace) then
        let hostPart := (pre.reverse.takeWhile (fun c => !c.isWhitespace)).reverse
        let host := hostPart ++ fqdnSuffix
        let tok := ((spaceFields s).filter (fun t => !t.isEmpty)).getD 1 []
        match lastSplitOn ':' tok with
        | some (ip, port) =>
          if ip = [] then .error .ipNotFound
          else if port = [] then .error .portNotFound
          else .ok (some ⟨ip, host, port⟩)
        | none => .error .ipNotFound
      else .error .fqdnNotFound
  else .ok none

/-- The amended reading of the claim, matching the code: "whitespace" is the
space character; the hostname scan also fails (with "FQDN not found") when
the nearest preceding space sits immediately before the suffix, i.e. the
name part is empty; the "second token" is the second field of the line under
single-space splitting, with empty fields counted. -/
def specParseAm (s : Str) : Except ParseErr (Option ConnectionLog) :=
  if relevantLogMsg s then
    match strIdx s fqdnSuffix with
    | none => .ok none
    | some si =>
      let pre := s.take si
      match lastSplitOn ' ' pre with
      | none => .error .fqdnNotFound
      | some (_, namePart) =>
        if namePart = [] then .error .fqdnNotFound
        else
          let host := namePart ++ fqdnSuffix
          let tok := (spaceFields s).getD 1 []
          match lastSplitOn ':' tok with
          | some (ip, port) =>
            if ip = [] then .error .ipNotFound
            else if port = [] then .error .portNotFound
            else .ok (some ⟨ip, host, port⟩)
          | none => .error .ipNotFound
  else .ok none

-- ---------------------------------------------------------------------------
-- TopologyIndex and ConnectionCorrelator
-- ---------------------------------------------------------------------------

/-- `v1.ObjectReference` (the fields the code reads). -/
structure ObjectReference where
  kind : Str
  name : Str
  nspace : Str
deriving DecidableEq

/-- `v1.EndpointAddress`: `TargetRef` is a pointer in Go and may be nil. -/
structure EndpointAddress where
  ip : Str
  targetRef : Option ObjectReference
deriving DecidableEq

structure EndpointSubset where
  addresses : List EndpointAddress
deriving DecidableEq

structure Endpoints where
  subsets : List EndpointSubset
deriving DecidableEq

/-- The topology snapshot built by `Initialize`: `allNamespaces.Items` and the
map `allEndpoints` (modelled as a function; `Initialize` populates an entry
for every listed namespace, so every lookup the code performs is present). -/
structure Topology where
  namespaces : List Str
  endpoints : Str → List Endpoints

def podKind : Str := "Pod".toList

/-- The innermost loop of `processConnectionLog` over `es.Addresses`.
`none` encodes the nil-pointer dereference `ea.TargetRef.Kind` that Go
performs, without a nil check, as soon as `ea.IP == c.FromIP` holds;
`some none` means "no match in this list"; `some (some (name, ns))` is a
resolved source pod. -/
def scanAddresses (ip : Str) : List EndpointAddress → Option (Option (Str × Str))
  | [] => some none
  | ea :: rest =>
    if ea.ip = ip then
      match ea.targetRef with
      | none => none
      | some ref =>
        if ref.kind = podKind then some (some (ref.name, ref.nspace))
        else scanAddresses ip rest
    else scanAddresses ip rest

/-- The loop over `e.Subsets` with its `if found { break }`. -/
def scanSubsets (ip : Str) : List EndpointSubset → Option (Option (Str × Str))
  | [] => some none
  | ss :: rest =>
    match scanAddresses ip ss.addresses with
    | none => none
    | some (some r) => some (some r)
    | some none => scanSubsets ip rest

/-- The loop over `r.allEndpoints[n.Name].Items`. -/
def scanEndpointsList (ip : Str) : List Endpoints → Option (Option (Str × Str))
  | [] => some none
  | e :: rest =>
    match scanSubsets ip e.subsets with
    | none => none
    | some (some r) => some (some r)
    | some none => scanEndpointsList ip rest

/-- The loop over `r.allNamespaces.Items`. -/
def scanNamespaces (topo : Topology) (ip : Str) : List Str → Option (Option (Str × Str))
  | [] => some none
  | n :: rest =>
    match scanEndpointsList ip (topo.endpoints n) with
    | none => none
    | some (some r) => some (some r)
    | some none => scanNamespaces topo ip rest

/-- The whole source-IP resolution scan of `processConnectionLog`. -/
def resolveSource (topo : Topology) (ip : Str) : Option (Option (Str × Str)) :=
  scanNamespaces topo ip topo.namespaces

/-- One entry of `hostnamePodMapping` (the Go `Mapping` struct). -/
structure Mapping where
  podname : Str
  nspace : Str
deriving DecidableEq

/-- Association-list lookup standing for the Go map read
`r.hostnamePodMapping[h]` (a missing key reads as nil, i.e. `[]`). -/
def lookupM : List (Str × List Mapping) → Str → List Mapping
  | [], _ => []
  | (k, w) :: rest, h => if k = h then w else lookupM rest h

/-- Association-list update standing for the Go map write
`r.hostnamePodMapping[h] = v`. -/
def setM : List (Str × List Mapping) → Str → List Mapping → List (Str × List Mapping)
  | [], h, v => [(h, v)]
  | (k, w) :: rest, h, v =>
    if k = h then (k, v) :: rest else (k, w) :: setM rest h v

/-- The correlator's mutable state: the hostname → mappings map, plus the
discovery records emitted by `log.Infof("pod: %s, ns: %s via svc: %s")`,
as (podname, namespace, hostname) triples in emission order. -/
structure CorrState where
  mapping : List (Str × List Mapping)
  records : List (Str × Str × Str)
deriving DecidableEq

def CorrState.empty : CorrState := ⟨[], []⟩

/-- `processConnectionLog` from the source. The outer loop over
`r.toPodServiceFQDNs` runs its body (once, then `break`) exactly when the
event's hostname equals some FQDN in the list. When the scan resolves
nothing, Go leaves `fromPodName`/`fromNs` as their zero values `""` and
still runs the mapping/record block. `none` encodes the nil-pointer panic
propagated from the scan. -/
def processConnectionLog (topo : Topology) (fqdns : List Str) (st : CorrState)
    (c : ConnectionLog) : Option CorrState :=
  if fqdns.any (fun f => c.toHostname == f) then
    match resolveSource topo c.fromIP with
    | none => none
    | some res =>
      let fromPodName := (res.map Prod.fst).getD []
      let fromNs := (res.map Prod.snd).getD []
      let entries := lookupM st.mapping c.toHostname
      if entries.any (fun p => p.podname == fromPodName) then some st
      else
        some ⟨setM st.mapping c.toHostname (entries ++ [⟨fromPodName, fromNs⟩]),
              st.records ++ [(fromPodName, fromNs, c.toHostname)]⟩
  else some st

/-- Sequential processing of a list of events (the body of
`processConnectionLogsSegment`: under the mutex, each event is processed
whole, one at a time; `processConnectionLog` never returns a Go error, so
the segment's early-exit arm is dead code). -/
def processList (topo : Topology) (fqdns : List Str) :
    CorrState → List ConnectionLog → Option CorrState
  | st, [] => some st
  | st, c :: rest =>
    match processConnectionLog topo fqdns st c with
    | none => none
    | some st' => processList topo fqdns st' rest

/-- Go integer division: panics (here `none`) when the divisor is zero. -/
def goDiv (a b : Nat) : Option Nat := if b = 0 then none else some (a / b)

/-- Go integer modulus: panics (here `none`) when the divisor is zero. -/
def goMod (a b : Nat) : Option Nat := if b = 0 then none else some (a % b)

/-- The segmentation performed by `processConnectionLogs`: `l / concurrency`
segments `logs[i*c : (i+1)*c]` plus, when `m := l % concurrency` is nonzero,
the remainder segment `logs[l-m : l]`. Concurrency is the CLI's `-c` count,
modelled as a natural number. -/
def segmentConnectionLogs (conc : Nat) (logs : List ConnectionLog) :
    Option (List (List ConnectionLog)) :=
  match goDiv logs.length conc, goMod logs.length conc with
  | some segments, some m =>
    let main := (List.range segments).map (fun i => ((logs.drop (i * conc)).take conc))
    some (if m ≠ 0 then main ++ [logs.drop (logs.length - m)] else main)
  | _, _ => none

/-- One interleaved execution of the concurrent segment goroutines: the
schedule lists, mutex acquisition by mutex acquisition, which segment's
goroutine runs its (whole-event, serialized) critical section next.
`schedRun sched segs = some order` when the schedule is a complete, valid
interleaving, and `order` is the sequence in which events enter the mutex. -/
def schedRun : List Nat → List (List ConnectionLog) → Option (List ConnectionLog)
  | [], segs => if segs.all (fun s => s.isEmpty) then some [] else none
  | i :: is, segs =>
    match segs[i]? with
    | some (c :: rest) => (schedRun is (segs.set i rest)).map (fun l => c :: l)
    | _ => none

-- ---------------------------------------------------------------------------
-- findToPodServiceFQDNs and suggestNetPol
-- ---------------------------------------------------------------------------

/-- `v1.Service` (the fields the code reads). A Go `map[string]string`
selector is iterated in an unspecified, randomized order; the selector is
modelled as the sequence of key/value pairs in one such iteration order. -/
structure Service where
  name : Str
  nspace : Str
  selector : List (Str × Str)
deriving DecidableEq

/-- Go map read `labels[k]`: the zero value `""` when the key is absent. -/
def getLabel (labels : List (Str × Str)) (k : Str) : Str :=
  ((labels.lookup k).getD [])

/-- The inner `for k, v := range selector` loop of `findToPodServiceFQDNs`:
on each pair, if `toPod.GetLabels()[k] != v` it breaks, otherwise it appends
the service (again) to `toPodServices`. -/
def appendMatches (podLabels : List (Str × Str)) (s : Service) :
    List (Str × Str) → List Service
  | [] => []
  | (k, v) :: rest =>
    if getLabel podLabels k ≠ v then []
    else s :: appendMatches podLabels s rest

/-- `findToPodServiceFQDNs` from the source: collect `toPodServices` by the
loop above, then synthesize `fmt.Sprintf("%s.%s.svc.cluster.local.", ...)`
for each collected service. -/
def findToPodServiceFQDNs (podLabels : List (Str × Str)) (services : List Service) :
    List Str :=
  ((services.map (fun s => appendMatches podLabels s s.selector)).flatten).map
    (fun s => s.name ++ ".".toList ++ s.nspace ++ ".svc.cluster.local.".toList)

/-- `ignoredPodLabels` from the source. -/
def ignoredPodLabels : List Str := ["pod-template-hash".toList]

/-- Go `delete(l, k)` on a label map. -/
def deleteKey (l : List (Str × Str)) (k : Str) : List (Str × Str) :=
  l.filter (fun kv => !(kv.1 == k))

/-- The `for _, ignoredLabel := range ignoredPodLabels { delete(l, ...) }` loop. -/
def stripIgnored (l : List (Str × Str)) : List (Str × Str) :=
  ignoredPodLabels.foldl deleteKey l

/-- `reflect.DeepEqual` on two label maps: equal key sets with equal values
(the association lists are assumed duplicate-key-free, as Go maps are). -/
def labelsEq (a b : List (Str × Str)) : Bool :=
  a.all (fun kv => b.lookup kv.1 == some kv.2) &&
    b.all (fun kv => a.lookup kv.1 == some kv.2)

/-- The body of `suggestNetPol`'s double loop for one mapping entry.
`getPod ns name` is the external `Pods(ns).Get(name)` call: `none` models a
failed Get, which the code merely logs — it then proceeds with the returned
zero-value Pod, whose `GetLabels()` is the nil map `[]`. -/
def netPolPeersStep (getPod : Str → Str → Option (List (Str × Str)))
    (peers : List (List (Str × Str))) (m : Mapping) : List (List (Str × Str)) :=
  let fetched :=
    match getPod m.nspace m.podname with
    | some ls => ls
    | none => []
  let l := stripIgnored fetched
  if peers.any (fun q => labelsEq q l) then peers else peers ++ [l]

/-- The peer-accumulation phase of `suggestNetPol`: fold over every mapping
entry of `hostnamePodMapping` (the Go map iterated in the association list's
order) and build the deduplicated `netPolPeers` list. -/
def suggestNetPolPeers (getPod : Str → Str → Option (List (Str × Str)))
    (mapping : List (Str × List Mapping)) : List (List (Str × Str)) :=
  mapping.foldl (fun peers kv => kv.2.foldl (netPolPeersStep getPod) peers) []

-- ---------------------------------------------------------------------------
-- Concrete instances used by the claim theorems
-- ---------------------------------------------------------------------------

/-- A target pod's labels: `{app: db, tier: back}`. -/
def podLabelsX : List (Str × Str) :=
  [("app".toList, "db".toList), ("tier".toList, "back".toList)]

/-- A service whose two-pair selector fully matches `podLabelsX`. -/
def svcFull : Service :=
  ⟨"user-db".toList, "shop".toList,
    [("app".toList, "db".toList), ("tier".toList, "back".toList)]⟩

/-- A service whose selector matches on its first iterated pair and
mismatches on its second — not a subset of the pod's labels. -/
def svcPartial : Service :=
  ⟨"cart-db".toList, "shop".toList,
    [("app".toList, "db".toList), ("x".toList, "9".toList)]⟩

/-- The hostname used by the correlation examples. -/
def hostH : Str := "user-db.sock-shop.svc.cluster.local.".toList

/-- Topology with one endpoint address `10.0.0.1 → Pod other`. -/
def topoC2 : Topology :=
  ⟨["ns1".toList],
    fun n =>
      if n = "ns1".toList then
        [⟨[⟨[⟨"10.0.0.1".toList, some ⟨podKind, "other".toList, "ns1".toList⟩⟩]⟩]⟩]
      else []⟩

/-- An event whose source IP `10.9.9.9` resolves to no endpoint address. -/
def evUnresolved : ConnectionLog := ⟨"10.9.9.9".toList, hostH, "55".toList⟩

/-- Topology resolving `ip1 → Pod pA` and `ip2 → Pod pB` in one subset. -/
def topoAB : Topology :=
  ⟨["ns".toList],
    fun _ =>
      [⟨[⟨[⟨"ip1".toList, some ⟨podKind, "pA".toList, "ns".toList⟩⟩,
           ⟨"ip2".toList, some ⟨podKind, "pB".toList, "ns".toList⟩⟩]⟩]⟩]⟩

def evA : ConnectionLog := ⟨"ip1".toList, hostH, "1".toList⟩

def evB : ConnectionLog := ⟨"ip2".toList, hostH, "2".toList⟩

/-- Topology whose single subset holds, in scan order: a Pod-referenced
address for `ip1`, then a target-reference-free address for the same `ip1`,
then a target-reference-free address for a different IP. -/
def topoShadow : Topology :=
  ⟨["ns".toList],
    fun _ =>
      [⟨[⟨[⟨"ip1".toList, some ⟨podKind, "pA".toList, "ns".toList⟩⟩,
           ⟨"ip1".toList, none⟩,
           ⟨"zz".toList, none⟩]⟩]⟩]⟩

/-- Topology whose only address for `ip1` carries no target reference. -/
def topoNilRef : Topology :=
  ⟨["ns".toList], fun _ => [⟨[⟨[⟨"ip1".toList, none⟩]⟩]⟩]⟩

/-- The Scenario A sample line. -/
def lineA : Str :=
  "[INFO] 10.42.2.90:59003 - 9687 \"AAAA IN user-db.sock-shop.svc.cluster.local. udp 53 false 512\" NOERROR qr,aa,rd 146 0.000428325s".toList

/-- A relevant line on which the backward scan finds a space immediately
before the FQDN-suffix occurrence (empty name part). -/
def lineEmptyName : Str := "[INFO] 1.2.3.4:55 .svc.cluster.local. NOERROR".toList

/-- A relevant line with no space before the FQDN-suffix occurrence. -/
def lineNoSpace : Str := "[INFO].svc.cluster.local.NOERROR: x".toList

-- ---------------------------------------------------------------------------
-- C1, C2, C4, C6
-- ---------------------------------------------------------------------------

/-- C1: refuted as stated; evaluation of the code on the failing input. A
service whose two selector pairs both match the target pod's labels is
appended once per pair, so its FQDN appears twice; a service whose selector
mismatches on the second iterated pair still contributes an FQDN, because
the first matching pair already appended it before the `break`. The claim's
"exactly one FQDN per fully matching service, none for a mismatching one"
is what the function was documented to do, not what it does. -/
theorem c1_eval_duplicate_fqdns :
    findToPodServiceFQDNs podLabelsX [svcFull, svcPartial] =
      ["user-db.shop.svc.cluster.local.".toList,
       "user-db.shop.svc.cluster.local.".toList,
       "cart-db.shop.svc.cluster.local.".toList] := by
  decide

/-- C2: refuted as stated; evaluation of the code on the failing input. An
event whose destination hostname is a target FQDN but whose source IP
matches no endpoint address does NOT leave the state unchanged: the scan
leaves `fromPodName`/`fromNs` as `""` and, with no `found` check, the code
appends `Mapping{podname: "", namespace: ""}` under the hostname and emits
the discovery record `pod: , ns:  via svc: <hostname>`. -/
theorem c2_eval_unresolved_event_mutates :
    processConnectionLog topoC2 [hostH] CorrState.empty evUnresolved =
      some ⟨[(hostH, [⟨[], []⟩])], [([], [], hostH)]⟩ := by
  decide

/-- C4: refuted as stated; evaluation of the code on the failing input. The
mapping holds pods `p1` (whose label fetch fails) and `p2` (whose fetch
yields `{name: user, pod-template-hash: xyz}`). The failed fetch is only
logged: the code continues with the zero pod's empty label map and appends
an empty-selector PolicyPeer, instead of skipping the identity. Synthesis
does complete and `p2`'s stripped labels do appear, as the claim says. -/
theorem c4_eval_failed_fetch_adds_empty_peer :
    suggestNetPolPeers
      (fun _ name =>
        if name = "p2".toList then
          some [("name".toList, "user".toList),
                ("pod-template-hash".toList, "xyz".toList)]
        else none)
      [(hostH, [⟨"p1".toList, "ns".toList⟩, ⟨"p2".toList, "ns".toList⟩])] =
      [[], [("name".toList, "user".toList)]] := by
  decide

/-- C6: confirmed. A raw line is relevant exactly when it begins with
`[INFO]`, contains the FQDN suffix `.svc.cluster.local.`, contains
`NOERROR`, and contains a colon; each of the four conditions independently
falsifies relevance. -/
theorem c6_relevant_iff (s : Str) :
    relevantLogMsg s = true ↔
      (∃ t, s = infoTag ++ t) ∧ (∃ a b, s = a ++ fqdnSuffix ++ b) ∧
        (∃ a b, s = a ++ noerrorTag ++ b) ∧ (∃ a b, s = a ++ [':'] ++ b) := by
  simp only [relevantLogMsg, Bool.and_eq_true, strHasPfx_iff, strHasSub_iff]
  tauto

-- ---------------------------------------------------------------------------
-- C3: a ParseError aborts the whole harvest
-- ---------------------------------------------------------------------------

def isErr {ε α : Type} : Except ε α → Bool
  | .error _ => true
  | .ok _ => false

theorem isErr_map {ε α β : Type} (f : α → β) (x : Except ε α) :
    isErr (x.map f) = isErr x := by
  cases x <;> rfl

theorem parseLines_err (lines : List Str)
    (h : ∃ l ∈ lines, isErr (parseLogMsg l) = true) :
    isErr (parseLines lines) = true := by
  induction lines with
  | nil => simp at h
  | cons t rest ih =>
    rcases h with ⟨l, hl, herr⟩
    rcases List.mem_cons.mp hl with rfl | hmem
    · unfold parseLines
      cases hp : parseLogMsg l with
      | error e => rfl
      | ok o => rw [hp] at herr; cases herr
    · unfold parseLines
      cases hp : parseLogMsg t with
      | error e => rfl
      | ok o =>
        cases o with
        | none => exact ih ⟨l, hmem, herr⟩
        | some c => rw [isErr_map]; exact ih ⟨l, hmem, herr⟩

/-- C3: refuted as stated, theorem for the amended claim. A parse failure on
any line of any source does not merely drop that line: `parseConnectionLogs`
returns the error, aborting the harvest, so no events at all are produced —
not even those of well-formed lines. -/
theorem c3_parse_error_aborts_harvest (sources : List (List Str))
    (h : ∃ l ∈ sources.flatten, isErr (parseLogMsg l) = true) :
    isErr (parseConnectionLogs sources) = true := by
  induction sources with
  | nil => simp at h
  | cons src more ih =>
    rcases h with ⟨l, hl, herr⟩
    rw [List.flatten_cons, List.mem_append] at hl
    unfold parseConnectionLogs
    cases hp : parseLines src with
    | error e => rfl
    | ok cs =>
      rw [isErr_map]
      rcases hl with hin | hin
      · have hcontra := parseLines_err src ⟨l, hin, herr⟩
        rw [hp] at hcontra
        simp [isErr] at hcontra
      · exact ih ⟨l, hin, herr⟩

theorem c3_witness :
    (∃ l ∈ ([[lineNoSpace]] : List (List Str)).flatten,
        isErr (parseLogMsg l) = true) ∧
      isErr (parseConnectionLogs [[lineNoSpace]]) = true :=
  ⟨by decide, c3_parse_error_aborts_harvest [[lineNoSpace]] (by decide)⟩

/-- C3: counterexample to the claim as stated. A harvest over one source
containing a well-formed Scenario-A line followed by a line whose parse
fails returns the ParseError itself: the well-formed line's event — which
`parseLogMsg` alone does produce — is not in the output, and processing did
not continue. -/
theorem c3_counterexample :
    parseLogMsg lineA =
        .ok (some ⟨"10.42.2.90".toList, hostH, "59003".toList⟩) ∧
      parseConnectionLogs [[lineA, lineNoSpace]] = .error .fqdnNotFound := by
  constructor <;> decide

-- ---------------------------------------------------------------------------
-- C9: the segmentation of processConnectionLogs
-- ---------------------------------------------------------------------------

theorem chunks_flatten {α : Type} (logs : List α) (conc : Nat) :
    ∀ k, ((List.range k).map (fun i => ((logs.drop (i * conc)).take conc))).flatten
      = logs.take (k * conc) := by
  intro k
  induction k with
  | zero => simp
  | succ k ih =>
    rw [List.range_succ, List.map_append, List.flatten_append, ih]
    simp only [List.map_cons, List.map_nil, List.flatten_cons, List.flatten_nil,
      List.append_nil]
    rw [Nat.succ_mul, List.take_add]

/-- C9: confirmed. For concurrency ≥ 1 the segmentation of
`processConnectionLogs` is total and is exactly `⌊l/c⌋` contiguous segments
of size `c` plus one remainder segment of size `l mod c` when that is
nonzero, covering the event list exactly once; with concurrency 0 the
division `l / r.concurrency` has a zero divisor and the run panics — even
for an empty event list. -/
theorem c9_segmentation :
    (∀ (logs : List ConnectionLog) (conc : Nat), 1 ≤ conc →
      ∃ main rem, segmentConnectionLogs conc logs = some (main ++ rem) ∧
        (main ++ rem).flatten = logs ∧
        main.length = logs.length / conc ∧
        (∀ s ∈ main, s.length = conc) ∧
        (if logs.length % conc = 0 then rem = ([] : List (List ConnectionLog))
         else ∃ r, rem = [r] ∧ r.length = logs.length % conc)) ∧
      ∀ (logs : List ConnectionLog) (conc : Nat),
        (segmentConnectionLogs conc logs = none ↔ conc = 0) := by
  constructor
  · intro logs conc hconc
    have hc0 : conc ≠ 0 := Nat.one_le_iff_ne_zero.mp hconc
    set l := logs.length with hl
    set k := l / conc with hk
    set m := l % conc with hm
    have hdm : conc * k + m = l := Nat.div_add_mod l conc
    refine ⟨(List.range k).map (fun i => ((logs.drop (i * conc)).take conc)),
      if m ≠ 0 then [logs.drop (l - m)] else [], ?_, ?_, ?_, ?_, ?_⟩
    · simp only [segmentConnectionLogs, goDiv, goMod, if_neg hc0, ← hl, ← hk, ← hm]
      by_cases h0 : m = 0 <;> simp [h0]
    · by_cases h0 : m = 0
      · simp only [h0, ne_eq, not_true_eq_false, if_false, List.append_nil,
          chunks_flatten]
        have : k * conc = l := by rw [Nat.mul_comm]; omega
        rw [this, hl, List.take_length]
      · simp only [ne_eq, h0, not_false_eq_true, if_true, List.flatten_append,
          chunks_flatten]
        simp only [List.flatten_cons, List.flatten_nil, List.append_nil]
        have : k * conc = l - m := by rw [Nat.mul_comm]; omega
        rw [this, List.take_append_drop]
    · simp
    · intro s hs
      rcases List.mem_map.mp hs with ⟨i, hi, rfl⟩
      have hik : i < k := List.mem_range.mp hi
      have hle : i * conc + conc ≤ l := by
        have h1 : (i + 1) * conc ≤ k * conc := Nat.mul_le_mul_right conc hik
        have h2 : k * conc ≤ l := by
          rw [hk, hl]; exact Nat.div_mul_le_self logs.length conc
        calc i * conc + conc = (i + 1) * conc := by ring
          _ ≤ k * conc := h1
          _ ≤ l := h2
      simp only [List.length_take, List.length_drop, ← hl]
      omega
    · by_cases h0 : m = 0
      · simp [h0]
      · have hml : m ≤ l := Nat.mod_le l conc
        simp only [h0, if_false, ne_eq, not_false_eq_true, if_true]
        exact ⟨logs.drop (l - m), rfl, by simp only [List.length_drop, ← hl]; omega⟩
  · intro logs conc
    constructor
    · intro h
      by_contra hc
      simp [segmentConnectionLogs, goDiv, goMod, hc] at h
    · intro h
      simp [segmentConnectionLogs, goDiv, goMod, h]

theorem c9_witness :
    ∃ main rem,
      segmentConnectionLogs 2 [evA, evB, evA, evB, evA] = some (main ++ rem) ∧
        (main ++ rem).flatten = [evA, evB, evA, evB, evA] ∧
        main.length = ([evA, evB, evA, evB, evA] : List ConnectionLog).length / 2 ∧
        (∀ s ∈ main, s.length = 2) ∧
        (if ([evA, evB, evA, evB, evA] : List ConnectionLog).length % 2 = 0 then
          rem = ([] : List (List ConnectionLog))
        else ∃ r, rem = [r] ∧
          r.length = ([evA, evB, evA, evB, evA] : List ConnectionLog).length % 2) :=
  c9_segmentation.1 [evA, evB, evA, evB, evA] 2 (by decide)

-- ---------------------------------------------------------------------------
-- C7: dedup invariant of the correlator
-- ---------------------------------------------------------------------------

theorem lookupM_setM_self (m : List (Str × List Mapping)) (h : Str)
    (v : List Mapping) : lookupM (setM m h v) h = v := by
  induction m with
  | nil => simp [setM, lookupM]
  | cons kv rest ih =>
    obtain ⟨k, w⟩ := kv
    by_cases hk : k = h
    · simp [setM, hk, lookupM]
    · simp [setM, hk, lookupM, ih]

theorem lookupM_setM_ne (m : List (Str × List Mapping)) (h h' : Str)
    (v : List Mapping) (hne : h' ≠ h) :
    lookupM (setM m h v) h' = lookupM m h' := by
  have hne' : h ≠ h' := fun e => hne e.symm
  induction m with
  | nil =>
    simp only [setM, lookupM]
    rw [if_neg hne']
  | cons kv rest ih =>
    obtain ⟨k, w⟩ := kv
    by_cases hk : k = h
    · subst hk
      simp only [setM, if_pos rfl, lookupM]
      rw [if_neg hne', if_neg hne']
    · simp only [setM, if_neg hk, lookupM]
      by_cases hk' : k = h'
      · rw [if_pos hk', if_pos hk']
      · rw [if_neg hk', if_neg hk', ih]

/-- The correlator's running invariant: per hostname no two entries share a
podname; the emitted records correspond exactly to the mapping entries; and
no two records share a (hostname, podname) pair. -/
def CorrInv (st : CorrState) : Prop :=
  (∀ h, List.Pairwise (fun a b => a.podname ≠ b.podname) (lookupM st.mapping h)) ∧
    (∀ p ns h, (p, ns, h) ∈ st.records ↔ (⟨p, ns⟩ : Mapping) ∈ lookupM st.mapping h) ∧
    List.Pairwise (fun r1 r2 => ¬(r1.2.2 = r2.2.2 ∧ r1.1 = r2.1)) st.records

theorem corrInv_empty : CorrInv CorrState.empty := by
  refine ⟨fun h => ?_, fun p ns h => ?_, ?_⟩ <;> simp [CorrState.empty, lookupM]

theorem processOne_inv (topo : Topology) (fqdns : List Str) (st st' : CorrState)
    (c : ConnectionLog) (hinv : CorrInv st)
    (h : processConnectionLog topo fqdns st c = some st') : CorrInv st' := by
  unfold processConnectionLog at h
  by_cases hmem : fqdns.any (fun f => c.toHostname == f) = true
  · rw [if_pos hmem] at h
    cases hres : resolveSource topo c.fromIP with
    | none => rw [hres] at h; cases h
    | some res =>
      rw [hres] at h
      simp only [] at h
      set p0 : Str := (res.map Prod.fst).getD [] with hp0
      set ns0 : Str := (res.map Prod.snd).getD [] with hns0
      set h0 : Str := c.toHostname with hh0
      set entries : List Mapping := lookupM st.mapping h0 with hent
      by_cases hpres : entries.any (fun p => p.podname == p0) = true
      · rw [if_pos hpres] at h
        cases h
        exact hinv
      · rw [if_neg hpres] at h
        cases h
        have hnotin : ∀ e ∈ entries, e.podname ≠ p0 := by
          intro e he heq
          exact hpres (List.any_eq_true.mpr ⟨e, he, beq_iff_eq.mpr heq⟩)
        obtain ⟨inv1, inv2, inv3⟩ := hinv
        refine ⟨fun hn => ?_, fun p ns hn => ?_, ?_⟩
        · by_cases hhn : hn = h0
          · rw [hhn, lookupM_setM_self, List.pairwise_append]
            exact ⟨inv1 h0, by simp, fun a ha b hb => by
              simp only [List.mem_singleton] at hb
              subst hb
              exact hnotin a ha⟩
          · rw [lookupM_setM_ne _ _ _ _ hhn]
            exact inv1 hn
        · by_cases hhn : hn = h0
          · rw [hhn, lookupM_setM_self, List.mem_append, List.mem_append]
            simp only [List.mem_singleton, Prod.mk.injEq, Mapping.mk.injEq]
            rw [inv2 p ns h0]
            tauto
          · rw [lookupM_setM_ne _ _ _ _ hhn, List.mem_append]
            simp only [List.mem_singleton, Prod.mk.injEq]
            rw [inv2 p ns hn]
            have : ¬(p = p0 ∧ ns = ns0 ∧ hn = h0) := fun he => hhn he.2.2
            tauto
        · rw [List.pairwise_append]
          refine ⟨inv3, by simp, fun a ha b hb => ?_⟩
          simp only [List.mem_singleton] at hb
          subst hb
          rintro ⟨hh, hp⟩
          obtain ⟨a1, a2, a3⟩ := a
          have hh' : a3 = h0 := hh
          have hp' : a1 = p0 := hp
          have hmem2 : (⟨a1, a2⟩ : Mapping) ∈ lookupM st.mapping a3 :=
            (inv2 a1 a2 a3).mp ha
          rw [hh'] at hmem2
          apply hpres
          exact List.any_eq_true.mpr ⟨⟨a1, a2⟩, hmem2, beq_iff_eq.mpr hp'⟩
  · rw [if_neg hmem] at h
    cases h
    exact hinv

theorem processList_inv (topo : Topology) (fqdns : List Str)
    (l : List ConnectionLog) :
    ∀ (st st' : CorrState), CorrInv st →
      processList topo fqdns st l = some st' → CorrInv st' := by
  induction l with
  | nil => intro st st' hinv h; cases h; exact hinv
  | cons c rest ih =>
    intro st st' hinv h
    unfold processList at h
    cases hstep : processConnectionLog topo fqdns st c with
    | none => rw [hstep] at h; cases h
    | some st1 =>
      rw [hstep] at h
      exact ih st1 st' (processOne_inv topo fqdns st st1 c hinv hstep) h

/-- C7: confirmed. After correlating any event list from an empty mapping
(in any processing order, hence under any schedule of the segments), every
hostname's entry list contains at most one entry per distinct podname, and
the discovery records carry no duplicated (hostname, podname) pair — one
record was emitted exactly when its (podname, namespace) entry was newly
added under its hostname. -/
theorem c7_dedup_invariant (topo : Topology) (fqdns : List Str)
    (l : List ConnectionLog) (st' : CorrState)
    (h : processList topo fqdns CorrState.empty l = some st') :
    (∀ hn, List.Pairwise (fun a b => a.podname ≠ b.podname) (lookupM st'.mapping hn)) ∧
      List.Pairwise (fun r1 r2 => ¬(r1.2.2 = r2.2.2 ∧ r1.1 = r2.1)) st'.records ∧
      ∀ p ns hn, (p, ns, hn) ∈ st'.records ↔ (⟨p, ns⟩ : Mapping) ∈ lookupM st'.mapping hn := by
  obtain ⟨i1, i2, i3⟩ := processList_inv topo fqdns l CorrState.empty st' corrInv_empty h
  exact ⟨i1, i3, i2⟩

theorem c7_witness :
    (∀ hn, List.Pairwise (fun a b => a.podname ≠ b.podname)
        (lookupM [(hostH, [(⟨"pA".toList, "ns".toList⟩ : Mapping),
          ⟨"pB".toList, "ns".toList⟩])] hn)) ∧
      List.Pairwise (fun r1 r2 => ¬(r1.2.2 = r2.2.2 ∧ r1.1 = r2.1))
        [("pA".toList, "ns".toList, hostH), ("pB".toList, "ns".toList, hostH)] ∧
      ∀ p ns hn,
        (p, ns, hn) ∈ [("pA".toList, "ns".toList, hostH),
            ("pB".toList, "ns".toList, hostH)] ↔
          (⟨p, ns⟩ : Mapping) ∈
            lookupM [(hostH, [(⟨"pA".toList, "ns".toList⟩ : Mapping),
              ⟨"pB".toList, "ns".toList⟩])] hn :=
  c7_dedup_invariant topoAB [hostH] [evA, evB, evA]
    ⟨[(hostH, [⟨"pA".toList, "ns".toList⟩, ⟨"pB".toList, "ns".toList⟩])],
      [("pA".toList, "ns".toList, hostH), ("pB".toList, "ns".toList, hostH)]⟩
    (by decide)

-- ---------------------------------------------------------------------------
-- C8: schedules, interleavings, and what is (and is not) run-invariant
-- ---------------------------------------------------------------------------

theorem all_isEmpty_flatten {α : Type} (segs : List (List α))
    (h : segs.all (fun s => s.isEmpty) = true) : segs.flatten = [] := by
  induction segs with
  | nil => rfl
  | cons s rest ih =>
    simp only [List.all_cons, Bool.and_eq_true] at h
    rw [List.flatten_cons, List.isEmpty_iff.mp h.1, ih h.2]
    rfl

theorem cons_set_perm {α : Type} (segs : List (List α)) (i : Nat) (c : α)
    (rest : List α) (h : segs[i]? = some (c :: rest)) :
    (c :: (segs.set i rest).flatten).Perm segs.flatten := by
  induction segs generalizing i with
  | nil => simp at h
  | cons s tail ih =>
    cases i with
    | zero =>
      simp only [List.getElem?_cons_zero, Option.some.injEq] at h
      subst h
      simp only [List.set_cons_zero, List.flatten_cons, List.cons_append]
      exact List.Perm.refl _
    | succ n =>
      simp only [List.getElem?_cons_succ] at h
      simp only [List.set_cons_succ, List.flatten_cons]
      exact (List.perm_middle.symm).trans (List.Perm.append_left s (ih n h))

theorem schedRun_perm (sched : List Nat) :
    ∀ (segs : List (List ConnectionLog)) (o : List ConnectionLog),
      schedRun sched segs = some o → o.Perm segs.flatten := by
  induction sched with
  | nil =>
    intro segs o h
    simp only [schedRun] at h
    split at h
    · cases h
      rw [all_isEmpty_flatten segs (by assumption)]
    · cases h
  | cons i is ih =>
    intro segs o h
    simp only [schedRun] at h
    cases hg : segs[i]? with
    | none => rw [hg] at h; cases h
    | some seg =>
      cases seg with
      | nil => rw [hg] at h; cases h
      | cons c rest =>
        rw [hg] at h
        rcases Option.map_eq_some'.mp h with ⟨l, hl, rfl⟩
        exact (List.Perm.cons c (ih (segs.set i rest) l hl)).trans
          (cons_set_perm segs i c rest hg)

/-- The podname that `processConnectionLog` would record for a source IP:
`none` when the scan panics, otherwise the resolved target name (or `""`
when the IP resolves to nothing). -/
def srcPodName (topo : Topology) (ip : Str) : Option Str :=
  (resolveSource topo ip).map (fun r => (r.map Prod.fst).getD [])

/-- The podnames recorded under a hostname. -/
def podsAt (st : CorrState) (h : Str) : List Str :=
  (lookupM st.mapping h).map Mapping.podname

theorem processOne_podsAt (topo : Topology) (fqdns : List Str)
    (st st' : CorrState) (c : ConnectionLog)
    (h : processConnectionLog topo fqdns st c = some st') (hn p : Str) :
    p ∈ podsAt st' hn ↔ p ∈ podsAt st hn ∨
      (c.toHostname = hn ∧ fqdns.any (fun f => c.toHostname == f) = true ∧
        srcPodName topo c.fromIP = some p) := by
  unfold processConnectionLog at h
  by_cases hmem : fqdns.any (fun f => c.toHostname == f) = true
  · rw [if_pos hmem] at h
    cases hres : resolveSource topo c.fromIP with
    | none => rw [hres] at h; cases h
    | some res =>
      rw [hres] at h
      simp only [] at h
      set p0 : Str := (res.map Prod.fst).getD [] with hp0
      have hsrc : srcPodName topo c.fromIP = some p0 := by
        rw [srcPodName, hres]; rfl
      set entries : List Mapping := lookupM st.mapping c.toHostname with hent
      by_cases hpres : entries.any (fun q => q.podname == p0) = true
      · rw [if_pos hpres] at h
        cases h
        constructor
        · exact Or.inl
        · rintro (hin | ⟨hhn, -, hp⟩)
          · exact hin
          · rw [hsrc] at hp
            rcases List.any_eq_true.mp hpres with ⟨e, he, heq⟩
            have : e.podname = p0 := beq_iff_eq.mp heq
            rw [podsAt, ← hhn, ← hent]
            exact List.mem_map.mpr ⟨e, he,
              by rw [this, ← Option.some.injEq]; exact hp⟩
      · rw [if_neg hpres] at h
        cases h
        by_cases hhn : hn = c.toHostname
        · subst hhn
          rw [podsAt, lookupM_setM_self, List.map_append, List.mem_append]
          simp only [List.map_cons, List.map_nil, List.mem_singleton]
          rw [hsrc]
          constructor
          · rintro (hin | rfl)
            · exact Or.inl (by rw [podsAt, ← hent]; exact hin)
            · exact Or.inr ⟨trivial, hmem, rfl⟩
          · rintro (hin | ⟨-, -, hp⟩)
            · exact Or.inl (by rw [podsAt, ← hent] at hin; exact hin)
            · exact Or.inr (Option.some.injEq .. ▸ hp.symm ▸ rfl)
        · rw [podsAt, lookupM_setM_ne _ _ _ _ hhn]
          constructor
          · exact fun hin => Or.inl hin
          · rintro (hin | ⟨hhn', -, -⟩)
            · exact hin
            · exact absurd hhn'.symm hhn
  · rw [if_neg hmem] at h
    cases h
    constructor
    · exact Or.inl
    · rintro (hin | ⟨-, hmem', -⟩)
      · exact hin
      · exact absurd hmem' hmem

theorem processList_podsAt (topo : Topology) (fqdns : List Str) :
    ∀ (l : List ConnectionLog) (st st' : CorrState),
      processList topo fqdns st l = some st' → ∀ hn p,
        (p ∈ podsAt st' hn ↔ p ∈ podsAt st hn ∨
          ∃ c ∈ l, c.toHostname = hn ∧
            fqdns.any (fun f => c.toHostname == f) = true ∧
            srcPodName topo c.fromIP = some p) := by
  intro l
  induction l with
  | nil =>
    intro st st' h hn p
    cases h
    simp
  | cons c rest ih =>
    intro st st' h hn p
    unfold processList at h
    cases hstep : processConnectionLog topo fqdns st c with
    | none => rw [hstep] at h; cases h
    | some st1 =>
      rw [hstep] at h
      rw [ih st1 st' h hn p, processOne_podsAt topo fqdns st st1 c hstep hn p,
        List.exists_mem_cons_iff]
      tauto

/-- C8: refuted as stated, theorem for the amended claim. Whatever two
complete interleavings of the segment goroutines the two runs take, both
runs produce the same hostname keys and, per hostname, the same SET of
podnames; insertion order (and, when two source IPs resolve to the same
podname in different namespaces, the stored namespace) is all that can
differ between schedules, and runs with the same executed order are
identical since per-event processing is deterministic. -/
theorem c8_amended (topo : Topology) (fqdns : List Str)
    (segs : List (List ConnectionLog)) (s1 s2 : List Nat)
    (o1 o2 : List ConnectionLog) (st1 st2 : CorrState)
    (h1 : schedRun s1 segs = some o1) (h2 : schedRun s2 segs = some o2)
    (r1 : processList topo fqdns CorrState.empty o1 = some st1)
    (r2 : processList topo fqdns CorrState.empty o2 = some st2) :
    ∀ hn, (lookupM st1.mapping hn = [] ↔ lookupM st2.mapping hn = []) ∧
      ∀ p, (p ∈ podsAt st1 hn ↔ p ∈ podsAt st2 hn) := by
  have perm1 := schedRun_perm s1 segs o1 h1
  have perm2 := schedRun_perm s2 segs o2 h2
  intro hn
  have hpods : ∀ p, (p ∈ podsAt st1 hn ↔ p ∈ podsAt st2 hn) := by
    intro p
    rw [processList_podsAt topo fqdns o1 CorrState.empty st1 r1 hn p,
      processList_podsAt topo fqdns o2 CorrState.empty st2 r2 hn p]
    have hempty : podsAt CorrState.empty hn = [] := rfl
    rw [hempty]
    simp only [List.not_mem_nil, false_or]
    constructor
    · rintro ⟨c, hc, hP⟩
      exact ⟨c, perm2.mem_iff.mpr (perm1.mem_iff.mp hc), hP⟩
    · rintro ⟨c, hc, hP⟩
      exact ⟨c, perm1.mem_iff.mpr (perm2.mem_iff.mp hc), hP⟩
  refine ⟨?_, hpods⟩
  have k1 : lookupM st1.mapping hn = [] ↔ podsAt st1 hn = [] := by
    rw [podsAt, List.map_eq_nil_iff]
  have k2 : lookupM st2.mapping hn = [] ↔ podsAt st2 hn = [] := by
    rw [podsAt, List.map_eq_nil_iff]
  rw [k1, k2, List.eq_nil_iff_forall_not_mem, List.eq_nil_iff_forall_not_mem]
  exact ⟨fun ha p hp => ha p ((hpods p).mpr hp),
    fun ha p hp => ha p ((hpods p).mp hp)⟩

/-- The result of running the correlation over the two events in the order
`[evA, evB]` — entries inserted in that order. -/
def stAB1 : CorrState :=
  ⟨[(hostH, [⟨"pA".toList, "ns".toList⟩, ⟨"pB".toList, "ns".toList⟩])],
    [("pA".toList, "ns".toList, hostH), ("pB".toList, "ns".toList, hostH)]⟩

/-- The result of running the correlation in the order `[evB, evA]`. -/
def stAB2 : CorrState :=
  ⟨[(hostH, [⟨"pB".toList, "ns".toList⟩, ⟨"pA".toList, "ns".toList⟩])],
    [("pB".toList, "ns".toList, hostH), ("pA".toList, "ns".toList, hostH)]⟩

/-- C8: counterexample to the claim as stated. Two events in two singleton
segments (exactly the segmentation `processConnectionLogs` computes for
concurrency 1) admit the two complete interleavings `[0,1]` and `[1,0]`,
whose executed orders are `[evA, evB]` and `[evB, evA]`; both runs start
from a fresh empty mapping yet produce different mapping contents — the two
entries under the hostname appear in different insertion orders. -/
theorem c8_counterexample :
    segmentConnectionLogs 1 [evA, evB] = some [[evA], [evB]] ∧
      schedRun [0, 1] [[evA], [evB]] = some [evA, evB] ∧
      schedRun [1, 0] [[evA], [evB]] = some [evB, evA] ∧
      processList topoAB [hostH] CorrState.empty [evA, evB] = some stAB1 ∧
      processList topoAB [hostH] CorrState.empty [evB, evA] = some stAB2 ∧
      stAB1 ≠ stAB2 := by
  refine ⟨by decide, by decide, by decide, by decide, by decide, by decide⟩

theorem c8_witness :
    (lookupM stAB1.mapping hostH = [] ↔ lookupM stAB2.mapping hostH = []) ∧
      ∀ p, (p ∈ podsAt stAB1 hostH ↔ p ∈ podsAt stAB2 hostH) :=
  c8_amended topoAB [hostH] [[evA], [evB]] [0, 1] [1, 0] [evA, evB] [evB, evA]
    stAB1 stAB2 (by decide) (by decide) (by decide) (by decide) hostH

-- ---------------------------------------------------------------------------
-- C10: the TargetRef dereference
-- ---------------------------------------------------------------------------

/-- Every endpoint address the resolution scan can visit, in scan order. -/
def allAddresses (topo : Topology) : List EndpointAddress :=
  (topo.namespaces.map (fun n =>
    ((topo.endpoints n).map (fun e =>
      (e.subsets.map (fun ss => ss.addresses)).flatten)).flatten)).flatten

theorem scanAddresses_total (ip : Str) (addrs : List EndpointAddress)
    (h : ∀ ea ∈ addrs, ea.ip = ip → ea.targetRef.isSome = true) :
    (scanAddresses ip addrs).isSome = true := by
  induction addrs with
  | nil => rfl
  | cons ea rest ih =>
    simp only [scanAddresses]
    by_cases hip : ea.ip = ip
    · rw [if_pos hip]
      cases href : ea.targetRef with
      | none =>
        have := h ea (List.mem_cons_self ea rest) hip
        rw [href] at this
        cases this
      | some ref =>
        dsimp only
        by_cases hk : ref.kind = podKind
        · rw [if_pos hk]; rfl
        · rw [if_neg hk]
          exact ih (fun x hx => h x (List.mem_cons_of_mem ea hx))
    · rw [if_neg hip]
      exact ih (fun x hx => h x (List.mem_cons_of_mem ea hx))

theorem scanSubsets_total (ip : Str) (subsets : List EndpointSubset)
    (h : ∀ ea ∈ (subsets.map (fun ss => ss.addresses)).flatten,
      ea.ip = ip → ea.targetRef.isSome = true) :
    (scanSubsets ip subsets).isSome = true := by
  induction subsets with
  | nil => rfl
  | cons ss rest ih =>
    simp only [scanSubsets]
    have hhead : (scanAddresses ip ss.addresses).isSome = true :=
      scanAddresses_total ip ss.addresses (fun ea hea => h ea
        (by rw [List.map_cons, List.flatten_cons, List.mem_append]; exact Or.inl hea))
    cases hs : scanAddresses ip ss.addresses with
    | none => rw [hs] at hhead; cases hhead
    | some r =>
      cases r with
      | none =>
        exact ih (fun ea hea => h ea
          (by rw [List.map_cons, List.flatten_cons, List.mem_append]; exact Or.inr hea))
      | some v => rfl

theorem scanEndpointsList_total (ip : Str) (eps : List Endpoints)
    (h : ∀ ea ∈ (eps.map (fun e => (e.subsets.map (fun ss => ss.addresses)).flatten)).flatten,
      ea.ip = ip → ea.targetRef.isSome = true) :
    (scanEndpointsList ip eps).isSome = true := by
  induction eps with
  | nil => rfl
  | cons e rest ih =>
    simp only [scanEndpointsList]
    have hhead : (scanSubsets ip e.subsets).isSome = true :=
      scanSubsets_total ip e.subsets (fun ea hea => h ea
        (by rw [List.map_cons, List.flatten_cons, List.mem_append]; exact Or.inl hea))
    cases hs : scanSubsets ip e.subsets with
    | none => rw [hs] at hhead; cases hhead
    | some r =>
      cases r with
      | none =>
        exact ih (fun ea hea => h ea
          (by rw [List.map_cons, List.flatten_cons, List.mem_append]; exact Or.inr hea))
      | some v => rfl

theorem scanNamespaces_total (topo : Topology) (ip : Str) (nss : List Str)
    (h : ∀ ea ∈ (nss.map (fun n =>
        ((topo.endpoints n).map (fun e =>
          (e.subsets.map (fun ss => ss.addresses)).flatten)).flatten)).flatten,
      ea.ip = ip → ea.targetRef.isSome = true) :
    (scanNamespaces topo ip nss).isSome = true := by
  induction nss with
  | nil => rfl
  | cons n rest ih =>
    simp only [scanNamespaces]
    have hhead : (scanEndpointsList ip (topo.endpoints n)).isSome = true :=
      scanEndpointsList_total ip (topo.endpoints n) (fun ea hea => h ea
        (by rw [List.map_cons, List.flatten_cons, List.mem_append]; exact Or.inl hea))
    cases hs : scanEndpointsList ip (topo.endpoints n) with
    | none => rw [hs] at hhead; cases hhead
    | some r =>
      cases r with
      | none =>
        exact ih (fun ea hea => h ea
          (by rw [List.map_cons, List.flatten_cons, List.mem_append]; exact Or.inr hea))
      | some v => rfl

/-- C10: refuted as stated, theorem for the amended claim. If every endpoint
address whose IP equals the event's source IP carries a non-nil target
reference, per-event processing is total: the short-circuited condition
`ea.IP == c.FromIP && ea.TargetRef.Kind == "Pod"` never dereferences the
target reference of a non-matching address, so such addresses may freely
lack one. (The claim's converse — that a matching reference-free address
always makes processing undefined — fails: the scan may `break` on an
earlier matching Pod reference and never reach it; see the counterexample.) -/
theorem c10_amended (topo : Topology) (fqdns : List Str) (st : CorrState)
    (c : ConnectionLog)
    (h : ∀ ea ∈ allAddresses topo, ea.ip = c.fromIP → ea.targetRef.isSome = true) :
    (processConnectionLog topo fqdns st c).isSome = true := by
  unfold processConnectionLog
  by_cases hmem : fqdns.any (fun f => c.toHostname == f) = true
  · rw [if_pos hmem]
    have htot : (resolveSource topo c.fromIP).isSome = true :=
      scanNamespaces_total topo c.fromIP topo.namespaces h
    cases hres : resolveSource topo c.fromIP with
    | none => rw [hres] at htot; cases htot
    | some res =>
      simp only []
      split
      · rfl
      · rfl
  · rw [if_neg hmem]
    rfl

theorem c10_witness :
    (processConnectionLog topoAB [hostH] CorrState.empty evA).isSome = true :=
  c10_amended topoAB [hostH] CorrState.empty evA (by decide)

/-- C10: counterexample to the claim as stated. In `topoShadow` the address
list for the event's source IP holds a Pod-referenced address first and a
reference-free address with the SAME matching IP second: processing is
total — the scan breaks before the dereference — even though not every
matching address carries a target reference, refuting "total only under
the precondition that every matching address carries a non-nil target
reference" and "a matching address without a target reference makes
processing of that event undefined". (When the reference-free matching
address IS reached, as in `topoNilRef`, processing does hit the nil
dereference.) -/
theorem c10_counterexample :
    (processConnectionLog topoShadow [hostH] CorrState.empty evA).isSome = true ∧
      (⟨"ip1".toList, none⟩ : EndpointAddress) ∈ allAddresses topoShadow ∧
      processConnectionLog topoNilRef [hostH] CorrState.empty evA = none := by
  refine ⟨by decide, by decide, by decide⟩

-- ---------------------------------------------------------------------------
-- C5: the parse refinement
-- ---------------------------------------------------------------------------

theorem spaceFields_eq (s : Str) : spaceFields s = splitOnSpace s := by
  induction s with
  | nil => rfl
  | cons c rest ih =>
    simp only [spaceFields, List.foldr_cons] at ih ⊢
    rw [ih]
    rfl

theorem lastSplitOn_none_iff (ch : Char) (t : Str) :
    lastSplitOn ch t = none ↔ ch ∉ t := by
  induction t with
  | nil => simp [lastSplitOn]
  | cons c rest ih =>
    rw [List.mem_cons]
    cases hr : lastSplitOn ch rest with
    | some ab =>
      obtain ⟨a, b⟩ := ab
      have hin : ch ∈ rest := by
        by_contra hno
        exact Option.noConfusion ((ih.mpr hno).symm.trans hr)
      simp [lastSplitOn, hr, hin]
    | none =>
      have hni : ch ∉ rest := ih.mp hr
      by_cases hc : c = ch
      · simp [lastSplitOn, hr, hc]
      · simp [lastSplitOn, hr, hc, hni]
        exact fun he => hc he.symm

theorem lastSplitOn_some (ch : Char) :
    ∀ (t a b : Str), lastSplitOn ch t = some (a, b) →
      t = a ++ ch :: b ∧ ch ∉ b := by
  intro t
  induction t with
  | nil => intro a b h; cases h
  | cons c rest ih =>
    intro a b h
    simp only [lastSplitOn] at h
    cases hr : lastSplitOn ch rest with
    | some ab =>
      obtain ⟨a', b'⟩ := ab
      rw [hr] at h
      simp only [Option.some.injEq, Prod.mk.injEq] at h
      obtain ⟨ha, hb⟩ := h
      obtain ⟨ht, hnb⟩ := ih a' b' hr
      subst ha
      subst hb
      exact ⟨by rw [ht]; rfl, hnb⟩
    | none =>
      rw [hr] at h
      by_cases hc : c = ch
      · rw [if_pos hc] at h
        simp only [Option.some.injEq, Prod.mk.injEq] at h
        obtain ⟨ha, hb⟩ := h
        refine ⟨by rw [← ha, ← hb, hc]; rfl, ?_⟩
        rw [← hb]
        exact (lastSplitOn_none_iff ch rest).mp hr
      · rw [if_neg hc] at h
        cases h

theorem lastIdxLE_none (ch : Char) (s : Str) (i : Nat)
    (h : ∀ j, j ≤ i → s[j]? ≠ some ch) : lastIdxLE ch s i = none := by
  induction i with
  | zero =>
    simp only [lastIdxLE]
    rw [if_neg (h 0 (le_refl 0))]
  | succ n ih =>
    simp only [lastIdxLE]
    rw [if_neg (h (n + 1) (le_refl _))]
    exact ih (fun j hj => h j (le_trans hj (Nat.le_succ n)))

theorem lastIdxLE_spec (ch : Char) (s : Str) (i k : Nat) (hk : k ≤ i)
    (hch : s[k]? = some ch)
    (hafter : ∀ j, k < j → j ≤ i → s[j]? ≠ some ch) :
    lastIdxLE ch s i = some k := by
  induction i with
  | zero =>
    have h0 : k = 0 := Nat.le_zero.mp hk
    subst h0
    simp only [lastIdxLE]
    rw [if_pos hch]
  | succ n ih =>
    by_cases hki : k = n + 1
    · subst hki
      simp only [lastIdxLE]
      rw [if_pos hch]
    · have hkn : k ≤ n := by omega
      simp only [lastIdxLE]
      rw [if_neg (hafter (n + 1) (by omega) (le_refl _))]
      exact ih hkn (fun j hj1 hj2 => hafter j hj1 (by omega))

theorem not_getElem?_of_not_mem {ch : Char} {t : Str} (h : ch ∉ t) (j : Nat) :
    t[j]? ≠ some ch := by
  intro hj
  obtain ⟨hlt, hval⟩ := List.getElem?_eq_some.mp hj
  exact h (hval ▸ t.getElem_mem hlt)

theorem getElem?_of_strIdx (s : Str) (si : Nat)
    (h : strIdx s fqdnSuffix = some si) : s[si]? = some '.' := by
  have hpfx := strIdx_some_pfx s fqdnSuffix si h
  have hsuf : fqdnSuffix = '.' :: "svc.cluster.local.".toList := rfl
  have h0 : (s.drop si)[0]? = s[si]? := by
    rw [List.getElem?_drop]
    norm_num
  cases hd : s.drop si with
  | nil =>
    rw [hd, hsuf] at hpfx
    cases hpfx
  | cons c cs =>
    rw [hd, hsuf] at hpfx
    simp only [strHasPfx, Bool.and_eq_true, beq_iff_eq] at hpfx
    rw [hd] at h0
    simp only [List.getElem?_cons_zero] at h0
    rw [← h0, hpfx.1]

theorem lastIdxLE_space_none (s : Str) (si : Nat) (hsi : s[si]? = some '.')
    (h : lastSplitOn ' ' (s.take si) = none) : lastIdxLE ' ' s si = none := by
  have hnm : ' ' ∉ s.take si := (lastSplitOn_none_iff ' ' (s.take si)).mp h
  apply lastIdxLE_none
  intro j hj
  rcases Nat.lt_or_ge j si with hlt | hge
  · have heq : (s.take si)[j]? = s[j]? := by
      rw [List.getElem?_take, if_pos hlt]
    rw [← heq]
    exact not_getElem?_of_not_mem hnm j
  · have hjsi : j = si := le_antisymm hj hge
    rw [hjsi, hsi]
    decide

theorem lastIdxLE_space_some (s : Str) (si : Nat) (hsi : s[si]? = some '.')
    (a b : Str) (h : lastSplitOn ' ' (s.take si) = some (a, b)) :
    lastIdxLE ' ' s si = some a.length ∧ (s.take si).drop (a.length + 1) = b := by
  obtain ⟨hdecomp, hnb⟩ := lastSplitOn_some ' ' (s.take si) a b h
  have hlen : si < s.length := by
    obtain ⟨hlt, -⟩ := List.getElem?_eq_some.mp hsi
    exact hlt
  have hpre : (s.take si).length = si := by
    rw [List.length_take]
    exact min_eq_left (le_of_lt hlen)
  have hsia : a.length + 1 + b.length = si := by
    rw [← hpre, hdecomp]
    simp only [List.length_append, List.length_cons]
    omega
  have hk : a.length < si := by omega
  constructor
  · apply lastIdxLE_spec
    · omega
    · have heq : (s.take si)[a.length]? = s[a.length]? := by
        rw [List.getElem?_take, if_pos hk]
      rw [← heq, hdecomp, List.getElem?_append_right (le_refl a.length)]
      simp
    · intro j hj1 hj2
      rcases Nat.lt_or_ge j si with hlt | hge
      · have heq : (s.take si)[j]? = s[j]? := by
          rw [List.getElem?_take, if_pos hlt]
        rw [← heq, hdecomp, List.getElem?_append_right (le_of_lt hj1)]
        have hge1 : (([' '] : Str)).length ≤ j - a.length := by
          simp only [List.length_singleton]
          omega
        rw [show (' ' :: b : Str) = [' '] ++ b from rfl,
          List.getElem?_append_right hge1]
        exact not_getElem?_of_not_mem hnb _
      · have hjsi : j = si := le_antisymm hj2 hge
        rw [hjsi, hsi]
        decide
  · rw [hdecomp, List.drop_append 1]
    rfl

theorem lastIdxLE_colon_none (t : Str) (h : lastSplitOn ':' t = none) :
    lastIdxLE ':' t (t.length - 1) = none := by
  have hnm : ':' ∉ t := (lastSplitOn_none_iff ':' t).mp h
  apply lastIdxLE_none
  intro j _
  exact not_getElem?_of_not_mem hnm j

theorem lastIdxLE_colon_some (t a b : Str) (h : lastSplitOn ':' t = some (a, b)) :
    lastIdxLE ':' t (t.length - 1) = some a.length ∧
      t.take a.length = a ∧ t.drop (a.length + 1) = b := by
  obtain ⟨hdecomp, hnb⟩ := lastSplitOn_some ':' t a b h
  have hlen : t.length = a.length + 1 + b.length := by
    rw [hdecomp]
    simp only [List.length_append, List.length_cons]
    omega
  refine ⟨?_, ?_, ?_⟩
  · apply lastIdxLE_spec
    · omega
    · rw [hdecomp, List.getElem?_append_right (le_refl a.length)]
      simp
    · intro j hj1 hj2
      rw [hdecomp, List.getElem?_append_right (le_of_lt hj1)]
      have hge1 : (([':'] : Str)).length ≤ j - a.length := by
        simp only [List.length_singleton]
        omega
      rw [show (':' :: b : Str) = [':'] ++ b from rfl,
        List.getElem?_append_right hge1]
      exact not_getElem?_of_not_mem hnb _
  · rw [hdecomp]
    exact List.take_left a (':' :: b)
  · rw [hdecomp, List.drop_append 1]
    rfl

theorem parse_eq_specAm (s : Str) (hrel : relevantLogMsg s = true) :
    parseLogMsg s = specParseAm s := by
  unfold parseLogMsg specParseAm
  rw [if_pos hrel, if_pos hrel]
  cases hidx : strIdx s fqdnSuffix with
  | none => rfl
  | some si =>
    have hsi := getElem?_of_strIdx s si hidx
    simp only []
    cases hsplit : lastSplitOn ' ' (s.take si) with
    | none =>
      rw [lastIdxLE_space_none s si hsi hsplit]
      rfl
    | some ab =>
      obtain ⟨a, b⟩ := ab
      obtain ⟨hscan, hdropb⟩ := lastIdxLE_space_some s si hsi a b hsplit
      rw [hscan]
      simp only []
      rw [hdropb]
      by_cases hb : b = []
      · rw [if_pos hb, if_pos hb]
      · rw [if_neg hb, if_neg hb]
        rw [spaceFields_eq]
        cases hcolon : lastSplitOn ':' ((splitOnSpace s).getD 1 []) with
        | none =>
          rw [lastIdxLE_colon_none _ hcolon]
          rfl
        | some ipport =>
          obtain ⟨ip, port⟩ := ipport
          obtain ⟨hscan2, htake, hdrop⟩ := lastIdxLE_colon_some _ ip port hcolon
          rw [hscan2]
          simp only []
          rw [htake, hdrop]

/-- C5: refuted as stated, theorem for the amended claim. For every relevant
line, `parseLogMsg` computes exactly what the amended description says
(`specParseAm`): the hostname comes from scanning backward from the
FQDN-suffix occurrence to the nearest preceding SPACE character, with
ParseError "FQDN not found" when no space precedes it OR the nearest
preceding space sits immediately before the suffix (empty name part); the
IP and port come from the second field of the line under single-space
splitting (empty fields counted), split at its last colon, erroring when
the colon is absent or either side empty. Scenario A parses as specified. -/
theorem c5_parse_amended :
    (∀ s, relevantLogMsg s = true → parseLogMsg s = specParseAm s) ∧
      parseLogMsg lineA =
        .ok (some ⟨"10.42.2.90".toList,
          "user-db.sock-shop.svc.cluster.local.".toList, "59003".toList⟩) :=
  ⟨parse_eq_specAm, by decide⟩

theorem c5_witness :
    relevantLogMsg lineEmptyName = true ∧
      parseLogMsg lineEmptyName = specParseAm lineEmptyName :=
  ⟨by decide, c5_parse_amended.1 lineEmptyName (by decide)⟩

/-- C5: counterexample to the claim as stated. On the relevant line
`[INFO] 1.2.3.4:55 .svc.cluster.local. NOERROR` a whitespace character DOES
precede the FQDN-suffix occurrence (immediately before it), so the claim's
parse (`specParse`) succeeds with hostname `.svc.cluster.local.`, IP
`1.2.3.4` and port `55` — but the code returns the ParseError
"FQDN not found", because its scan conflates "no space found" with "empty
substring between the space and the suffix". -/
theorem c5_counterexample :
    relevantLogMsg lineEmptyName = true ∧
      parseLogMsg lineEmptyName = .error .fqdnNotFound ∧
      specParse lineEmptyName =
        .ok (some ⟨"1.2.3.4".toList, ".svc.cluster.local.".toList,
          "55".toList⟩) := by
  refine ⟨by decide, by decide, by decide⟩
